import Mathlib

/-!
Shallow embedding of the pop-launcher plugin binaries
(src/bin/mpris.rs, src/bin/commando.rs, src/bin/kicad.rs, src/bin/rust.rs
and the shared trait in src/lib.rs).

Modelling conventions:
* Rust `&str` / `String` values are modelled as `List Char` (`Str` below);
  `str::strip_prefix` becomes `stripPre`, `str::trim_start` becomes `trimStart`.
* The external crate `fuzzy_matcher::skim::SkimMatcherV2` is an external
  collaborator (spec section 4.2); its `fuzzy(choice, pattern, false)` call is
  abstracted as a parameter `m : Matcher := Str → Str → Option Int`
  (`some score` on a match, `none` otherwise).
* `PluginResponse` / `PluginSearchResult` mirror the pop_launcher protocol
  types; the `id` field (`u32` holding `items.len()`/`enumerate` indices,
  always far below 2^32 here) is modelled as `Nat`.
* External side effects of the mpris plugin (dbus calls on a player) are
  modelled as an oracle `ExtWorld` for the fallible queries and an explicit
  trace of `Effect`s for the issued calls; `f64` volumes are modelled as `ℚ`.
* Stateful handlers become explicit state passing: each handler takes the
  current `items` list and returns the new list together with the emitted
  responses (and effects).
-/

abbrev Str := List Char

/-- Model of Rust `str::strip_prefix`: `some rest` when the second argument
is the first one followed by `rest`, `none` otherwise. -/
def stripPre : Str → Str → Option Str
  | [], s => some s
  | _ :: _, [] => none
  | p :: ps, c :: cs => if p = c then stripPre ps cs else none

/-- Model of Rust `str::trim_start`. -/
def trimStart (s : Str) : Str := s.dropWhile Char.isWhitespace

/-- Abstraction of `SkimMatcherV2::fuzzy(choice, pattern, false)`:
first argument the candidate, second the query. -/
abbrev Matcher := Str → Str → Option Int

/-- pop_launcher `IconSource` (only the `Name` variant is used by these plugins). -/
inductive IconSource
  | name (s : Str)
deriving DecidableEq, Repr

/-- pop_launcher `PluginSearchResult`. -/
structure PluginSearchResult where
  id : Nat
  name : Str
  description : Str
  keywords : Option (List Str)
  icon : Option IconSource
  exec : Option Str
  window : Option (Nat × Nat)
deriving DecidableEq, Repr

/-- pop_launcher `PluginResponse` (the variants these plugins emit). -/
inductive PluginResponse
  | Clear
  | Append (result : PluginSearchResult)
  | Finished
  | Fill (text : Str)
  | Close
deriving DecidableEq, Repr

/-- The `id` fields of the `Append` responses in a response list, in order. -/
def appendIds (rs : List PluginResponse) : List Nat :=
  rs.filterMap fun r =>
    match r with
    | PluginResponse.Append sr => some sr.id
    | _ => none

/-- The `name` fields of the `Append` responses in a response list, in order. -/
def appendNames (rs : List PluginResponse) : List Str :=
  rs.filterMap fun r =>
    match r with
    | PluginResponse.Append sr => some sr.name
    | _ => none

/-- A list is in descending order of the measure `f`. -/
def descendingBy {α : Type} (f : α → Int) (l : List α) : Prop :=
  List.Chain' (fun a b => f b ≤ f a) l

instance {α : Type} (f : α → Int) (l : List α) : Decidable (descendingBy f l) :=
  inferInstanceAs (Decidable (List.Chain' (fun a b => f b ≤ f a) l))

/-- A concrete subsequence-acceptance matcher (one admissible instantiation of
the external skim matcher: it accepts exactly when every query character occurs
in the candidate in order, which is skim's acceptance condition). -/
def subseqAt : Str → Str → Bool
  | [], _ => true
  | _ :: _, [] => false
  | q :: qs, c :: cs => if q = c then subseqAt qs cs else subseqAt (q :: qs) cs

/-- `Matcher` instance built from `subseqAt` with a constant score. -/
def subseqMatcher : Matcher := fun choice pattern =>
  if subseqAt pattern choice then some 0 else none

namespace Mpris

/-- `PLUGIN_PREFIX` of src/bin/mpris.rs ("media"). -/
def mediaName : Str := "media".toList

/-- The `PlayerControls` enum of mpris.rs. -/
inductive PlayerControls
  | VolumeUp
  | VolumeDown
  | Play
  | Pause
deriving DecidableEq, Repr

/-- `From<&PlayerControls> for &'static str`. -/
def PlayerControls.toStr : PlayerControls → Str
  | .VolumeUp => "Volume up".toList
  | .VolumeDown => "Volume down".toList
  | .Play => "Play".toList
  | .Pause => "Pause".toList

/-- `PlayerControls::iter()` in its source order. -/
def PlayerControls.iterList : List PlayerControls :=
  [.VolumeUp, .VolumeDown, .Play, .Pause]

/-- `PlayerControls::get_matches`: keep the controls whose display name
fuzzy-matches the query, in iteration order. -/
def PlayerControls.get_matches (m : Matcher) (query : Str) : List PlayerControls :=
  PlayerControls.iterList.filter fun action => (m action.toStr query).isSome

/-- An `mpris::Player` handle, reduced to its stable identity string. -/
structure Player where
  identity : Str
deriving DecidableEq, Repr

/-- The `Item` enum of mpris.rs. -/
inductive Item
  | Player (player : Player)
  | Action (player : Player) (action : PlayerControls)
deriving DecidableEq, Repr

/-- `get_player_icon` of mpris.rs. -/
def get_player_icon (player : Player) : Option IconSource :=
  if player.identity = "Spotify".toList then some (IconSource.name "spotify".toList)
  else if player.identity = "Mozilla Firefox".toList then
    some (IconSource.name "firefox".toList)
  else some (IconSource.name "folder-music".toList)

/-- `get_action_icon` of mpris.rs. -/
def get_action_icon : PlayerControls → Option IconSource
  | .VolumeUp => some (IconSource.name "audio-volume-high".toList)
  | .VolumeDown => some (IconSource.name "audio-volume-low".toList)
  | .Play => some (IconSource.name "player_play".toList)
  | .Pause => some (IconSource.name "player_pause".toList)

/-- `MprisPlugin::format_player` (`self.items` passed explicitly). -/
def format_player (items : List Item) (player : Player) : Option PluginSearchResult :=
  some
    { id := items.length
      name := player.identity
      description := "Description".toList
      keywords := none
      icon := get_player_icon player
      exec := none
      window := none }

/-- `MprisPlugin::format_action` (`self.items` passed explicitly). -/
def format_action (items : List Item) (action : PlayerControls) : Option PluginSearchResult :=
  some
    { id := items.length
      name := action.toStr
      description := []
      keywords := none
      icon := get_action_icon action
      exec := none
      window := none }

/-- `PlayerFinder::find_by_name`, modelled as a lookup in the snapshot of
currently available players. -/
def find_by_name (players : List Player) (nm : Str) : Option Player :=
  players.find? fun p => p.identity == nm

/-- `MprisPlugin::get_player_matches`: filter the players whose identity
fuzzy-matches the query, in enumeration order. -/
def get_player_matches (m : Matcher) (players : List Player) (query : Str) : List Player :=
  players.filter fun player => (m player.identity query).isSome

/-- The `add_player` loop of `search`'s source-filter branch: for each matched
player, `format_player`, emit `Append`, push the item. -/
def add_players : List Player → List Item → List Item × List PluginResponse
  | [], items => (items, [])
  | p :: rest, items =>
    match format_player items p with
    | some r =>
      let next := add_players rest (items ++ [Item.Player p])
      (next.1, PluginResponse.Append r :: next.2)
    | none => add_players rest items

/-- The `add_action` loop of `search`'s source-selected branch: for each
matched control, re-resolve the player (`find_by_name`; on failure emit
`Finished` and abort the pass, flag `true`), `format_action`, emit `Append`,
push the item. -/
def add_actions (players : List Player) (pl : Player) :
    List PlayerControls → List Item → List Item × List PluginResponse × Bool
  | [], items => (items, [], false)
  | a :: rest, items =>
    match find_by_name players pl.identity with
    | none => (items, [PluginResponse.Finished], true)
    | some p2 =>
      match format_action items a with
      | some r =>
        let next := add_actions players pl rest (items ++ [Item.Action p2 a])
        (next.1, PluginResponse.Append r :: next.2.1, next.2.2)
      | none => add_actions players pl rest items

/-- `MprisPlugin::search`: clear (empty the items, emit `Clear`), strip the
plugin prefix (on mismatch emit `Finished` and stop), then either resolve a
selected source and append its matching actions, or append the matching
players; emit `Finished` at the end (unless the action loop aborted, which
already emitted it). -/
def search (m : Matcher) (players : List Player) (items : List Item) (input : Str) :
    List Item × List PluginResponse :=
  let cleared : List Item := []
  match stripPre (mediaName ++ [' ']) input with
  | none => (cleared, [PluginResponse.Clear, PluginResponse.Finished])
  | some input1 =>
    match players.find? (fun p => (stripPre p.identity input1).isSome) with
    | some pl =>
      let input2 := trimStart ((stripPre pl.identity input1).getD input1)
      let res := add_actions players pl (PlayerControls.get_matches m input2) cleared
      (res.1,
        PluginResponse.Clear ::
          (res.2.1 ++ if res.2.2 then [] else [PluginResponse.Finished]))
    | none =>
      let res := add_players (get_player_matches m players input1) cleared
      (res.1, PluginResponse.Clear :: (res.2 ++ [PluginResponse.Finished]))

/-- The query string `complete` rebuilds for the item at `id`
(`"media <identity> "` for a player, `"media <identity> <action>"` for an
action), `none` when the id is out of range. -/
def complete_target (items : List Item) (id : Nat) : Option Str :=
  match items[id]? with
  | some (Item.Player p) => some (mediaName ++ [' '] ++ p.identity ++ [' '])
  | some (Item.Action p a) =>
    some (mediaName ++ [' '] ++ p.identity ++ [' '] ++ a.toStr)
  | none => none

/-- `MprisPlugin::complete`: look up the id (out of range: log, no response),
emit `Fill` with the rebuilt query and re-run `search` on it. -/
def complete (m : Matcher) (players : List Player) (items : List Item) (id : Nat) :
    List Item × List PluginResponse :=
  match complete_target items id with
  | none => (items, [])
  | some s =>
    let res := search m players items s
    (res.1, PluginResponse.Fill s :: res.2)

/-- Oracle for the external media registry: current volume of a player
(`none`: the dbus query fails) and success of the issued calls. -/
structure ExtWorld where
  getVolume : Str → Option ℚ
  setVolumeOk : Str → ℚ → Bool
  playOk : Str → Bool
  pauseOk : Str → Bool

/-- Trace of the dbus calls `activate` issues on the external players. -/
inductive Effect
  | SetVolume (identity : Str) (volume : ℚ)
  | DoPlay (identity : Str)
  | DoPause (identity : Str)
deriving DecidableEq

/-- `increase_volume` of mpris.rs: read the current volume (failure: no call
issued, `false`), then set it to `current + increase` with no upper clamp. -/
def increase_volume (ext : ExtWorld) (p : Player) (increase : ℚ) : List Effect × Bool :=
  match ext.getVolume p.identity with
  | none => ([], false)
  | some v =>
    ([Effect.SetVolume p.identity (v + increase)], ext.setVolumeOk p.identity (v + increase))

/-- `decrease_volume` of mpris.rs: read the current volume, then set it to `0`
when the step exceeds it, else to `current - decrease`. -/
def decrease_volume (ext : ExtWorld) (p : Player) (decrease : ℚ) : List Effect × Bool :=
  match ext.getVolume p.identity with
  | none => ([], false)
  | some v =>
    if decrease > v then ([Effect.SetVolume p.identity 0], ext.setVolumeOk p.identity 0)
    else ([Effect.SetVolume p.identity (v - decrease)],
      ext.setVolumeOk p.identity (v - decrease))

/-- Result of one `activate` call: new items, emitted responses, issued
external calls. -/
structure ActOut where
  items : List Item
  responses : List PluginResponse
  effects : List Effect
deriving DecidableEq

/-- `MprisPlugin::activate`: out-of-range id is a logged no-op; a player item
delegates to `complete`; a volume action adjusts the volume (no response);
play/pause issue the call (failure only logged) and emit `Close`. -/
def activate (ext : ExtWorld) (m : Matcher) (players : List Player) (items : List Item)
    (id : Nat) : ActOut :=
  match items[id]? with
  | none => ⟨items, [], []⟩
  | some (Item.Player _) =>
    let res := complete m players items id
    ⟨res.1, res.2, []⟩
  | some (Item.Action p a) =>
    match a with
    | .VolumeUp => ⟨items, [], (increase_volume ext p (1 / 10)).1⟩
    | .VolumeDown => ⟨items, [], (decrease_volume ext p (1 / 10)).1⟩
    | .Play => ⟨items, [PluginResponse.Close], [Effect.DoPlay p.identity]⟩
    | .Pause => ⟨items, [PluginResponse.Close], [Effect.DoPause p.identity]⟩

/-- Whether a control closes the session on activation (play/pause)
rather than adjusting state and staying open (volume). -/
def PlayerControls.isTerminal : PlayerControls → Bool
  | .Play => true
  | .Pause => true
  | .VolumeUp => false
  | .VolumeDown => false

end Mpris

namespace Commando

/-- A `Command` record of commando.rs (name, invocation, optional icon). -/
structure Command where
  name : Str
  command : Str
  icon : Option Str
deriving DecidableEq, Repr

/-- `CommandoPlugin::search`: emit `Clear`, then one `Append` per command whose
name fuzzy-matches the query; the `id` is the command's index in the backing
`commands` list (`enumerate` runs before the filter). No prefix check and no
separate items list in this plugin. -/
def search (m : Matcher) (commands : List Command) (query : Str) : List PluginResponse :=
  PluginResponse.Clear ::
    (((commands.enum.filter fun ic => (m ic.2.name query).isSome).map fun ic =>
        PluginResponse.Append
          { id := ic.1
            name := ic.2.name
            description := []
            keywords := none
            icon := ic.2.icon.map IconSource.name
            exec := none
            window := none }) ++
      [PluginResponse.Finished])

end Commando

namespace Kicad

/-- A `KicadProject` record of kicad.rs. -/
structure KicadProject where
  path : Str
  name : Str
deriving DecidableEq, Repr

/-- `KicadPlugin::search`: strip the `"kicad "` query marker BEFORE emitting
anything — on mismatch only `Finished` is emitted (no `Clear`); otherwise emit
`Clear` and one `Append` per project whose name fuzzy-matches, the `id` being
the project's index in the backing `projects` list. -/
def search (m : Matcher) (projects : List KicadProject) (pat : Str) : List PluginResponse :=
  match stripPre ("kicad ".toList) pat with
  | none => [PluginResponse.Finished]
  | some query =>
    PluginResponse.Clear ::
      (((projects.enum.filter fun ip => (m ip.2.name query).isSome).map fun ip =>
          PluginResponse.Append
            { id := ip.1
              name := ip.2.name
              description := []
              keywords := none
              icon := some (IconSource.name "kicad".toList)
              exec := none
              window := none }) ++
        [PluginResponse.Finished])

end Kicad

namespace RustDocs

/-- The `Type` enum of rust.rs (`Mac`/`Ty` stand for the `Macro`/`Type`
variants). -/
inductive RdType
  | Constant
  | Enum
  | Function
  | Keyword
  | Mac
  | Module
  | Primitive
  | Struct
  | Trait
  | Ty
deriving DecidableEq, Repr

/-- `From<Type> for String` of rust.rs (including the `"contant"` typo the
source ships for `Constant`). -/
def RdType.typeStr : RdType → Str
  | .Function => "function".toList
  | .Struct => "struct".toList
  | .Keyword => "keyword".toList
  | .Mac => "macro".toList
  | .Trait => "trait".toList
  | .Module => "module".toList
  | .Primitive => "primitive".toList
  | .Constant => "contant".toList
  | .Enum => "enum".toList
  | .Ty => "type".toList

/-- An `Entry` of rust.rs (`ty` stands for the raw-identifier field
`r#type`). -/
structure Entry where
  name : Str
  ty : RdType
  file_path : Str
deriving DecidableEq, Repr

/-- The scoring `filter_map` of `RustDocsPlugin::search`: keep each directory
entry whose name fuzzy-matches the search term, paired with its score, in
directory order. -/
def scoredMatches (m : Matcher) (entries : List Entry) (term : Str) :
    List (Entry × Int) :=
  entries.filterMap fun e => (m e.name term).map fun s => (e, s)

/-- The order the comparator `|(_, x_score), (_, y_score)| y_score.cmp(x_score)`
given to `sorted_by` induces: `a` may precede `b` exactly when
`b.score ≤ a.score`. -/
def descLe (a b : Entry × Int) : Bool := decide (b.2 ≤ a.2)

/-- The `sorted_by(|(_, x), (_, y)| y.cmp(x))` step: a stable sort by
descending score (itertools `sorted_by` collects and runs the stable
`sort_by`). -/
def sortedMatches (m : Matcher) (entries : List Entry) (term : Str) :
    List (Entry × Int) :=
  (scoredMatches m entries term).mergeSort descLe

/-- The `.take(10)` truncation after the sort. -/
def rankedMatches (m : Matcher) (entries : List Entry) (term : Str) :
    List (Entry × Int) :=
  (sortedMatches m entries term).take 10

/-- The success path of `RustDocsPlugin::search` (prefix stripped and the
index path found; the directory scan's parsed output is the `entries`
parameter): emit `Clear`, clear the items, then push and `Append` the ranked,
truncated matches with `enumerate` ids. -/
def searchOk (m : Matcher) (entries : List Entry) (term : Str) :
    List Entry × List PluginResponse :=
  let ranked := (rankedMatches m entries term).map Prod.fst
  (ranked,
    PluginResponse.Clear ::
      ((ranked.enum.map fun ie =>
          PluginResponse.Append
            { id := ie.1
              name := ie.2.name
              description := ie.2.ty.typeStr
              keywords := none
              icon := none
              exec := none
              window := none }) ++
        [PluginResponse.Finished]))

end RustDocs

/-! ### Concrete data used by counterexamples and witnesses -/

/-- A concrete scored matcher used to witness that the mpris action branch
never reorders by score: on the query "pa" it scores "Pause" (a contiguous
match) above "Play" (a gapped match), as a skim-style matcher does. -/
def scoreTable : Matcher := fun choice pattern =>
  if pattern = "pa".toList then
    (if choice = "Play".toList then some 1
     else if choice = "Pause".toList then some 2
     else none)
  else none

/-- A player handle named "Spotify". -/
def spotifyPlayer : Mpris.Player := ⟨"Spotify".toList⟩

/-- External-world oracle whose every player reports volume `v`, whose
`set_volume`/`pause` calls succeed and whose `play` call fails (exercising the
failure-tolerant play path). -/
def constWorld (v : ℚ) : Mpris.ExtWorld :=
  { getVolume := fun _ => some v
    setVolumeOk := fun _ _ => true
    playOk := fun _ => false
    pauseOk := fun _ => true }

/-- Two commando commands, only the second of which matches the query "b". -/
def demoCommands : List Commando.Command :=
  [⟨"alpha".toList, "true".toList, none⟩, ⟨"beta".toList, "true".toList, none⟩]

/-! ### Helper lemmas -/

theorem stripPre_append (p s : Str) : stripPre p (p ++ s) = some s := by
  induction p with
  | nil => rfl
  | cons c cs ih => simp [stripPre, ih]

theorem appendIds_append (rs ts : List PluginResponse) :
    appendIds (rs ++ ts) = appendIds rs ++ appendIds ts := by
  simp [appendIds, List.filterMap_append]

theorem appendIds_clear_cons (rs : List PluginResponse) :
    appendIds (PluginResponse.Clear :: rs) = appendIds rs := rfl

theorem appendIds_finished : appendIds [PluginResponse.Finished] = [] := rfl

theorem appendIds_map_block {α : Type} (g : α → PluginSearchResult) (l : List α) :
    appendIds (l.map fun a => PluginResponse.Append (g a)) = l.map fun a => (g a).id := by
  induction l with
  | nil => rfl
  | cons a t ih => simpa [appendIds, List.filterMap_cons] using ih

namespace Mpris

theorem add_players_fst (ps : List Player) (items : List Item) :
    (add_players ps items).1 = items ++ ps.map Item.Player := by
  induction ps generalizing items with
  | nil => simp [add_players]
  | cons p rest ih =>
    simp [add_players, format_player, ih, List.append_assoc]

theorem add_players_ids (ps : List Player) (items : List Item) :
    appendIds (add_players ps items).2 = List.range' items.length ps.length := by
  induction ps generalizing items with
  | nil => simp [add_players, appendIds]
  | cons p rest ih =>
    have h := ih (items ++ [Item.Player p])
    simp only [List.length_append, List.length_cons, List.length_nil, Nat.add_zero] at h
    simp only [add_players, format_player, appendIds, List.filterMap_cons, List.range'_succ]
    simpa [appendIds, List.range'_succ] using h

theorem add_players_no_close (ps : List Player) (items : List Item) :
    PluginResponse.Close ∉ (add_players ps items).2 := by
  induction ps generalizing items with
  | nil => simp [add_players]
  | cons p rest ih =>
    simp [add_players, format_player]
    exact ih (items ++ [Item.Player p])

theorem add_actions_none {players : List Player} {pl : Player}
    (h : find_by_name players pl.identity = none) (acts : List PlayerControls)
    (items : List Item) :
    (add_actions players pl acts items).1 = items ∧
      appendIds (add_actions players pl acts items).2.1 = [] := by
  cases acts with
  | nil => simp [add_actions, appendIds]
  | cons a rest => simp [add_actions, h, appendIds]

theorem add_actions_some {players : List Player} {pl p2 : Player}
    (h : find_by_name players pl.identity = some p2) (acts : List PlayerControls)
    (items : List Item) :
    (add_actions players pl acts items).1 = items ++ acts.map (Item.Action p2) ∧
      appendIds (add_actions players pl acts items).2.1
        = List.range' items.length acts.length ∧
      (add_actions players pl acts items).2.2 = false := by
  induction acts generalizing items with
  | nil => simp [add_actions, appendIds]
  | cons a rest ih =>
    have h2 := ih (items ++ [Item.Action p2 a])
    simp only [List.length_append, List.length_cons, List.length_nil, Nat.add_zero] at h2
    simp only [add_actions, h, format_action, appendIds, List.filterMap_cons,
      List.range'_succ, List.map_cons]
    refine ⟨?_, ?_, h2.2.2⟩
    · simpa [List.append_assoc] using h2.1
    · simpa [appendIds, List.range'_succ] using h2.2.1

theorem add_actions_no_close (players : List Player) (pl : Player)
    (acts : List PlayerControls) (items : List Item) :
    PluginResponse.Close ∉ (add_actions players pl acts items).2.1 := by
  induction acts generalizing items with
  | nil => simp [add_actions]
  | cons a rest ih =>
    cases h : find_by_name players pl.identity with
    | none => simp [add_actions, h]
    | some p2 =>
      simp [add_actions, h, format_action]
      exact ih (items ++ [Item.Action p2 a])

theorem appendIds_abort_tail (b : Bool) :
    appendIds (if b then [] else [PluginResponse.Finished]) = [] := by
  cases b <;> rfl

/-- Every mpris search pass appends ids `0, 1, …` matching positions in the
rebuilt items list. -/
theorem search_ids (m : Matcher) (players : List Player) (items : List Item) (input : Str) :
    appendIds (search m players items input).2
      = List.range (search m players items input).1.length := by
  cases hp : stripPre (mediaName ++ [' ']) input with
  | none => simp [search, hp, appendIds]
  | some input1 =>
    cases hf : players.find? (fun p => (stripPre p.identity input1).isSome) with
    | some pl =>
      simp only [search, hp, hf]
      cases hb : find_by_name players pl.identity with
      | none =>
        obtain ⟨h1, h2⟩ := add_actions_none hb
          (PlayerControls.get_matches m
            (trimStart ((stripPre pl.identity input1).getD input1))) []
        simp [appendIds_clear_cons, appendIds_append, h1, h2, appendIds_abort_tail]
      | some p2 =>
        obtain ⟨h1, h2, h3⟩ := add_actions_some hb
          (PlayerControls.get_matches m
            (trimStart ((stripPre pl.identity input1).getD input1))) []
        rw [appendIds_clear_cons, appendIds_append, h2, h3, h1]
        simp [appendIds_finished, List.range_eq_range']
    | none =>
      simp only [search, hp, hf]
      have h1 := add_players_fst (get_player_matches m players input1) []
      have h2 := add_players_ids (get_player_matches m players input1) []
      rw [appendIds_clear_cons, appendIds_append, h2, h1]
      simp [appendIds_finished, List.range_eq_range']

/-- An mpris search pass never emits `Close`. -/
theorem search_no_close (m : Matcher) (players : List Player) (items : List Item)
    (input : Str) : PluginResponse.Close ∉ (search m players items input).2 := by
  cases hp : stripPre (mediaName ++ [' ']) input with
  | none => simp [search, hp]
  | some input1 =>
    cases hf : players.find? (fun p => (stripPre p.identity input1).isSome) with
    | some pl =>
      simp only [search, hp, hf, List.mem_cons, List.mem_append]
      push_neg
      refine ⟨by simp, add_actions_no_close _ _ _ _, ?_⟩
      cases (add_actions players pl
        (PlayerControls.get_matches m
          (trimStart ((stripPre pl.identity input1).getD input1))) []).2.2 <;> simp
    | none =>
      simp only [search, hp, hf, List.mem_cons, List.mem_append]
      push_neg
      exact ⟨by simp, add_players_no_close _ _, by simp⟩

/-- A `complete` pass never emits `Close`. -/
theorem complete_no_close (m : Matcher) (players : List Player) (items : List Item)
    (id : Nat) : PluginResponse.Close ∉ (complete m players items id).2 := by
  cases ht : complete_target items id with
  | none => simp [complete, ht]
  | some s =>
    simp only [complete, ht, List.mem_cons]
    push_neg
    exact ⟨by simp, search_no_close m players items s⟩

end Mpris

namespace RustDocs

theorem descLe_trans : ∀ (a b c : Entry × Int), descLe a b → descLe b c → descLe a c := by
  intro a b c h1 h2
  simp only [descLe, decide_eq_true_eq] at *
  exact le_trans h2 h1

theorem descLe_total : ∀ (a b : Entry × Int), descLe a b || descLe b a := by
  intro a b
  simp only [descLe]
  rcases le_total a.2 b.2 with h | h <;> simp [h]

/-- The stable sort step really sorts by descending score. -/
theorem sortedMatches_pairwise (m : Matcher) (entries : List Entry) (term : Str) :
    (sortedMatches m entries term).Pairwise (fun a b => b.2 ≤ a.2) := by
  have h := List.sorted_mergeSort descLe_trans descLe_total (scoredMatches m entries term)
  exact h.imp fun hab => by simpa [descLe] using hab

/-- Stability of the sort: the matches holding any fixed score `s` appear in
the sorted list exactly in their original enumeration order. -/
theorem sortedMatches_stable (m : Matcher) (entries : List Entry) (term : Str) (s : Int) :
    (sortedMatches m entries term).filter (fun p => decide (p.2 = s))
      = (scoredMatches m entries term).filter (fun p => decide (p.2 = s)) := by
  have hsub : List.Sublist
      ((scoredMatches m entries term).filter (fun p => decide (p.2 = s)))
      (scoredMatches m entries term) := List.filter_sublist _
  have hpair : ((scoredMatches m entries term).filter
      (fun p => decide (p.2 = s))).Pairwise (fun a b => descLe a b = true) := by
    apply List.pairwise_of_forall_mem_list
    intro a ha b hb
    have ha2 := (List.mem_filter.mp ha).2
    have hb2 := (List.mem_filter.mp hb).2
    simp only [decide_eq_true_eq] at ha2 hb2
    simp [descLe, ha2, hb2]
  have h1 : List.Sublist
      ((scoredMatches m entries term).filter (fun p => decide (p.2 = s)))
      (sortedMatches m entries term) :=
    List.sublist_mergeSort descLe_trans descLe_total hpair hsub
  have h2 := h1.filter (fun p => decide (p.2 = s))
  rw [List.filter_eq_self.mpr (fun a ha => (List.mem_filter.mp ha).2)] at h2
  have hperm : List.Perm
      ((sortedMatches m entries term).filter (fun p => decide (p.2 = s)))
      ((scoredMatches m entries term).filter (fun p => decide (p.2 = s))) :=
    (List.mergeSort_perm (scoredMatches m entries term) descLe).filter _
  exact (h2.eq_of_length hperm.length_eq.symm).symm

/-- Every success-path search appends ids `0, 1, …` matching positions in the
rebuilt items list. -/
theorem rust_search_ids (m : Matcher) (entries : List Entry) (term : Str) :
    appendIds (searchOk m entries term).2
      = List.range (searchOk m entries term).1.length := by
  simp only [searchOk]
  rw [appendIds_clear_cons, appendIds_append, appendIds_finished, List.append_nil,
    appendIds_map_block]
  show List.map Prod.fst (List.enum _) = _
  rw [List.enum_eq_enumFrom, List.enumFrom_map_fst, ← List.range_eq_range']

end RustDocs

namespace Commando

/-- The ids a commando search appends are the indices of the matching commands
in the backing list (`enumerate` before the filter). -/
theorem commando_ids (m : Matcher) (commands : List Command) (query : Str) :
    appendIds (search m commands query)
      = ((commands.enum.filter fun ic => (m ic.2.name query).isSome).map Prod.fst) := by
  simp only [search]
  rw [appendIds_clear_cons, appendIds_append, appendIds_finished, List.append_nil,
    appendIds_map_block]

end Commando

/-! ### Claims -/

/-- Claim C1 (amended): only the rust docs plugin orders matching candidates by
descending fuzzy score, with ties kept in original enumeration order (stable
sort); the mpris plugin's two branches (player identities in the source-filter
branch, action display names in the source-selected branch) append their
matches as an order-preserving filter of the original enumeration, without any
reordering by score. -/
theorem c1_matching_order (m : Matcher) (q : Str) (players : List Mpris.Player)
    (entries : List RustDocs.Entry) (term : Str) (s : Int) :
    List.Sublist (Mpris.PlayerControls.get_matches m q) Mpris.PlayerControls.iterList ∧
    List.Sublist (Mpris.get_player_matches m players q) players ∧
    (RustDocs.sortedMatches m entries term).Pairwise (fun a b => b.2 ≤ a.2) ∧
    (RustDocs.sortedMatches m entries term).filter (fun p => decide (p.2 = s))
      = (RustDocs.scoredMatches m entries term).filter (fun p => decide (p.2 = s)) :=
  ⟨List.filter_sublist _, List.filter_sublist _,
    RustDocs.sortedMatches_pairwise m entries term,
    RustDocs.sortedMatches_stable m entries term s⟩

/-- Claim C1 counterexample: with a skim-consistent matcher that scores "Pause"
(a contiguous match) above "Play" (a gapped match) on the query remainder "pa",
the mpris source-selected branch appends Play (score 1) before Pause (score 2):
the appended order follows the action enumeration, not descending score. -/
theorem c1_counterexample :
    appendNames (Mpris.search scoreTable [spotifyPlayer] []
        ("media Spotify pa".toList)).2 = ["Play".toList, "Pause".toList] ∧
    scoreTable "Play".toList "pa".toList = some 1 ∧
    scoreTable "Pause".toList "pa".toList = some 2 ∧
    ¬ descendingBy (fun n => (scoreTable n "pa".toList).getD 0)
        (appendNames (Mpris.search scoreTable [spotifyPlayer] []
          ("media Spotify pa".toList)).2) := by
  have hnames : appendNames (Mpris.search scoreTable [spotifyPlayer] []
      ("media Spotify pa".toList)).2 = ["Play".toList, "Pause".toList] := by decide
  refine ⟨hnames, by decide, by decide, ?_⟩
  rw [hnames]
  unfold descendingBy
  rw [List.chain'_pair]
  decide

/-- Claim C2 (amended): the plugins that rebuild an indexed items list per pass
(mpris and rust docs) append ids `0, 1, …, N-1` matching the final list of
length `N`; the commando plugin instead uses each matching command's index in
the backing command list as the id (`enumerate` before the filter), so its
n-th `Append` id can exceed `n-1` when earlier commands do not match. -/
theorem c2_append_ids (m : Matcher) (players : List Mpris.Player)
    (items : List Mpris.Item) (q : Str) (entries : List RustDocs.Entry) (term : Str)
    (commands : List Commando.Command) (cq : Str) :
    appendIds (Mpris.search m players items q).2
        = List.range (Mpris.search m players items q).1.length ∧
    appendIds (RustDocs.searchOk m entries term).2
        = List.range (RustDocs.searchOk m entries term).1.length ∧
    appendIds (Commando.search m commands cq)
        = ((commands.enum.filter fun ic => (m ic.2.name cq).isSome).map Prod.fst) :=
  ⟨Mpris.search_ids m players items q, RustDocs.rust_search_ids m entries term,
    Commando.commando_ids m commands cq⟩

/-- Claim C2 counterexample: given the commands ["alpha", "beta"] and the query
"b" (matching only "beta"), the commando pass emits a single `Append` whose id
is 1, not 0 — the id of the n-th `Append` is not `n-1`. -/
theorem c2_counterexample :
    appendIds (Commando.search subseqMatcher demoCommands ("b".toList)) = [1] ∧
    appendIds (Commando.search subseqMatcher demoCommands ("b".toList))
      ≠ List.range
          (appendIds (Commando.search subseqMatcher demoCommands ("b".toList))).length := by
  decide

/-- Claim C3 (amended): on a query missing the plugin's reserved token, the
mpris plugin (which clears before the token check) emits exactly `Clear` then
`Finished` with an empty items list, while the kicad plugin (which checks the
token first) emits exactly `Finished` alone, with no `Clear` and no `Append`. -/
theorem c3_prefix_mismatch (m : Matcher) (players : List Mpris.Player)
    (items : List Mpris.Item) (projects : List Kicad.KicadProject) (q : Str) :
    (stripPre (Mpris.mediaName ++ [' ']) q = none →
        Mpris.search m players items q
          = ([], [PluginResponse.Clear, PluginResponse.Finished])) ∧
    (stripPre ("kicad ".toList) q = none →
        Kicad.search m projects q = [PluginResponse.Finished]) := by
  constructor
  · intro h
    simp [Mpris.search, h]
  · intro h
    unfold Kicad.search
    rw [h]

/-- Claim C3 counterexample: the kicad plugin answers the non-matching query
"x" with the single response `Finished` — not with the pair `Clear` then
`Finished` the claim requires of every plugin. -/
theorem c3_counterexample :
    Kicad.search subseqMatcher [] ("x".toList) = [PluginResponse.Finished] ∧
    Kicad.search subseqMatcher [] ("x".toList)
      ≠ [PluginResponse.Clear, PluginResponse.Finished] := by
  decide

/-- Witness for C3 at the concrete query "x". -/
theorem c3_witness :
    Mpris.search subseqMatcher [] [] ("x".toList)
        = ([], [PluginResponse.Clear, PluginResponse.Finished]) ∧
    Kicad.search subseqMatcher [] ("x".toList) = [PluginResponse.Finished] :=
  ⟨(c3_prefix_mismatch subseqMatcher [] [] [] ("x".toList)).1 (by decide),
   (c3_prefix_mismatch subseqMatcher [] [] [] ("x".toList)).2 (by decide)⟩

/-- Claim C4 (code bug, evaluated at the failing input): with the current
volume at 19/20, activating a Volume-up action sets the volume to
19/20 + 1/10 = 21/20, which exceeds 1 and differs from the clamped value
min(19/20 + 1/10, 1) the claim (and spec section 9, which calls the missing
upper clamp a defect) requires; no `Close` is emitted, as the claim states. -/
theorem c4_code_bug :
    (Mpris.activate (constWorld (19 / 20)) subseqMatcher []
        [Mpris.Item.Action spotifyPlayer Mpris.PlayerControls.VolumeUp] 0).effects
        = [Mpris.Effect.SetVolume ("Spotify".toList) (19 / 20 + 1 / 10)] ∧
    (19 / 20 + 1 / 10 : ℚ) = 21 / 20 ∧
    (19 / 20 + 1 / 10 : ℚ) ≠ min (19 / 20 + 1 / 10 : ℚ) 1 ∧
    (Mpris.activate (constWorld (19 / 20)) subseqMatcher []
        [Mpris.Item.Action spotifyPlayer Mpris.PlayerControls.VolumeUp] 0).responses
        = [] := by
  refine ⟨?_, by norm_num, ?_, ?_⟩
  · simp [Mpris.activate, Mpris.increase_volume, constWorld, spotifyPlayer]
  · rw [min_eq_right (by norm_num : (1 : ℚ) ≤ 19 / 20 + 1 / 10)]
    norm_num
  · simp [Mpris.activate, Mpris.increase_volume, constWorld]

/-- Claim C5 (confirmed): activating a Volume-down action for a source whose
current volume reads `v` issues exactly one volume write, of value
`max (v - 1/10) 0` — never negative — and emits no response. -/
theorem c5_volume_down (ext : Mpris.ExtWorld) (m : Matcher) (players : List Mpris.Player)
    (items : List Mpris.Item) (id : Nat) (p : Mpris.Player) (v : ℚ)
    (hitem : items[id]? = some (Mpris.Item.Action p Mpris.PlayerControls.VolumeDown))
    (hvol : ext.getVolume p.identity = some v) :
    (Mpris.activate ext m players items id).effects
        = [Mpris.Effect.SetVolume p.identity (max (v - 1 / 10) 0)] ∧
    (0 : ℚ) ≤ max (v - 1 / 10) 0 ∧
    (Mpris.activate ext m players items id).responses = [] := by
  have hact : Mpris.activate ext m players items id
      = ⟨items, [], (Mpris.decrease_volume ext p (1 / 10)).1⟩ := by
    unfold Mpris.activate
    rw [hitem]
  rw [hact]
  refine ⟨?_, le_max_right _ _, rfl⟩
  show (Mpris.decrease_volume ext p (1 / 10)).1 = _
  unfold Mpris.decrease_volume
  simp only [hvol]
  by_cases h : (1 : ℚ) / 10 > v
  · rw [if_pos h, max_eq_right (by linarith : v - 1 / 10 ≤ (0 : ℚ))]
  · rw [if_neg h, max_eq_left (by linarith : (0 : ℚ) ≤ v - 1 / 10)]

/-- Witness for C5 at volume 1/2. -/
theorem c5_witness :
    (Mpris.activate (constWorld ((1 : ℚ) / 2)) subseqMatcher []
        [Mpris.Item.Action spotifyPlayer Mpris.PlayerControls.VolumeDown] 0).effects
        = [Mpris.Effect.SetVolume spotifyPlayer.identity (max ((1 : ℚ) / 2 - 1 / 10) 0)] ∧
    (0 : ℚ) ≤ max ((1 : ℚ) / 2 - 1 / 10) 0 ∧
    (Mpris.activate (constWorld ((1 : ℚ) / 2)) subseqMatcher []
        [Mpris.Item.Action spotifyPlayer Mpris.PlayerControls.VolumeDown] 0).responses
        = [] :=
  c5_volume_down (constWorld ((1 : ℚ) / 2)) subseqMatcher []
    [Mpris.Item.Action spotifyPlayer Mpris.PlayerControls.VolumeDown] 0 spotifyPlayer
    ((1 : ℚ) / 2) rfl rfl

/-- Claim C6 (confirmed): activating a (source, action) result emits exactly
one `Close` when the action is Play or Pause — whatever the external call
oracle reports, i.e. even when the play/pause call fails — and emits no
`Close` (indeed no response) for Volume-up/Volume-down; the dichotomy is total
over the action set. -/
theorem c6_close_discipline (ext : Mpris.ExtWorld) (m : Matcher)
    (players : List Mpris.Player) (items : List Mpris.Item) (id : Nat)
    (p : Mpris.Player) (a : Mpris.PlayerControls)
    (hitem : items[id]? = some (Mpris.Item.Action p a)) :
    ((a = Mpris.PlayerControls.Play ∨ a = Mpris.PlayerControls.Pause) →
        (Mpris.activate ext m players items id).responses = [PluginResponse.Close]) ∧
    ((a = Mpris.PlayerControls.VolumeUp ∨ a = Mpris.PlayerControls.VolumeDown) →
        PluginResponse.Close ∉ (Mpris.activate ext m players items id).responses) ∧
    (Mpris.activate ext m players items id).responses
        = (if a.isTerminal then [PluginResponse.Close] else []) := by
  cases a <;>
    (unfold Mpris.activate
     rw [hitem]
     simp [Mpris.PlayerControls.isTerminal])

/-- Witness for C6: a Play action with a failing external play call still
closes the session with exactly one `Close`. -/
theorem c6_witness :
    (Mpris.activate (constWorld ((1 : ℚ) / 2)) subseqMatcher []
        [Mpris.Item.Action spotifyPlayer Mpris.PlayerControls.Play] 0).responses
        = [PluginResponse.Close] :=
  (c6_close_discipline (constWorld ((1 : ℚ) / 2)) subseqMatcher []
      [Mpris.Item.Action spotifyPlayer Mpris.PlayerControls.Play] 0 spotifyPlayer
      Mpris.PlayerControls.Play rfl).1 (Or.inl rfl)

/-- Claim C7 (confirmed): for every in-range id, `complete` emits `Fill` with
the rebuilt query string and then re-runs `search` on that very string, whose
state and responses it returns; the rebuilt string always strips successfully
against `"media "`, so the re-search never takes the prefix-mismatch branch. -/
theorem c7_complete_round_trip (m : Matcher) (players : List Mpris.Player)
    (items : List Mpris.Item) (id : Nat) (hid : id < items.length) :
    ∃ s : Str,
      Mpris.complete_target items id = some s ∧
      Mpris.complete m players items id
          = ((Mpris.search m players items s).1,
            PluginResponse.Fill s :: (Mpris.search m players items s).2) ∧
      (stripPre (Mpris.mediaName ++ [' ']) s).isSome = true := by
  have hget : items[id]? = some items[id] := List.getElem?_eq_getElem hid
  cases hit : items[id] with
  | Player p =>
    have hget2 : items[id]? = some (Mpris.Item.Player p) := by rw [hget, hit]
    have htarget : Mpris.complete_target items id
        = some (Mpris.mediaName ++ [' '] ++ p.identity ++ [' ']) := by
      unfold Mpris.complete_target
      rw [hget2]
    refine ⟨Mpris.mediaName ++ [' '] ++ p.identity ++ [' '], htarget, ?_, ?_⟩
    · unfold Mpris.complete
      rw [htarget]
    · rw [List.append_assoc (Mpris.mediaName ++ [' ']) p.identity [' '],
        stripPre_append]
      rfl
  | Action p a =>
    have hget2 : items[id]? = some (Mpris.Item.Action p a) := by rw [hget, hit]
    have htarget : Mpris.complete_target items id
        = some (Mpris.mediaName ++ [' '] ++ p.identity ++ [' '] ++ a.toStr) := by
      unfold Mpris.complete_target
      rw [hget2]
    refine ⟨Mpris.mediaName ++ [' '] ++ p.identity ++ [' '] ++ a.toStr, htarget, ?_, ?_⟩
    · unfold Mpris.complete
      rw [htarget]
    · rw [List.append_assoc (Mpris.mediaName ++ [' '] ++ p.identity) [' '] a.toStr,
        List.append_assoc (Mpris.mediaName ++ [' ']) p.identity ([' '] ++ a.toStr),
        stripPre_append]
      rfl

/-- Witness for C7 on a one-item list. -/
theorem c7_witness :
    ∃ s : Str,
      Mpris.complete_target [Mpris.Item.Player spotifyPlayer] 0 = some s ∧
      Mpris.complete subseqMatcher [] [Mpris.Item.Player spotifyPlayer] 0
          = ((Mpris.search subseqMatcher [] [Mpris.Item.Player spotifyPlayer] s).1,
            PluginResponse.Fill s ::
              (Mpris.search subseqMatcher [] [Mpris.Item.Player spotifyPlayer] s).2) ∧
      (stripPre (Mpris.mediaName ++ [' ']) s).isSome = true :=
  c7_complete_round_trip subseqMatcher [] [Mpris.Item.Player spotifyPlayer] 0 (by decide)

/-- Claim C8 (confirmed): activating a bare-source (player) result delegates
to `complete` of the very same id — same new items list, same responses, no
external effect — and in particular emits no `Close`. -/
theorem c8_player_activate_eq_complete (ext : Mpris.ExtWorld) (m : Matcher)
    (players : List Mpris.Player) (items : List Mpris.Item) (id : Nat)
    (p : Mpris.Player) (hitem : items[id]? = some (Mpris.Item.Player p)) :
    Mpris.activate ext m players items id
        = ⟨(Mpris.complete m players items id).1,
          (Mpris.complete m players items id).2, []⟩ ∧
    PluginResponse.Close ∉ (Mpris.complete m players items id).2 := by
  refine ⟨?_, Mpris.complete_no_close m players items id⟩
  unfold Mpris.activate
  rw [hitem]

/-- Witness for C8 on a one-item list. -/
theorem c8_witness :
    Mpris.activate (constWorld ((1 : ℚ) / 2)) subseqMatcher []
        [Mpris.Item.Player spotifyPlayer] 0
        = ⟨(Mpris.complete subseqMatcher [] [Mpris.Item.Player spotifyPlayer] 0).1,
          (Mpris.complete subseqMatcher [] [Mpris.Item.Player spotifyPlayer] 0).2, []⟩ ∧
    PluginResponse.Close
        ∉ (Mpris.complete subseqMatcher [] [Mpris.Item.Player spotifyPlayer] 0).2 :=
  c8_player_activate_eq_complete (constWorld ((1 : ℚ) / 2)) subseqMatcher []
    [Mpris.Item.Player spotifyPlayer] 0 spotifyPlayer rfl

/-- Claim C9 (confirmed): an id at or beyond the list length makes both
`activate` and `complete` a no-op: no response, no external effect, items
unchanged. -/
theorem c9_out_of_range (ext : Mpris.ExtWorld) (m : Matcher)
    (players : List Mpris.Player) (items : List Mpris.Item) (id : Nat)
    (hid : items.length ≤ id) :
    Mpris.activate ext m players items id = ⟨items, [], []⟩ ∧
    Mpris.complete m players items id = (items, []) := by
  have h : items[id]? = none := List.getElem?_eq_none hid
  have h2 : Mpris.complete_target items id = none := by
    unfold Mpris.complete_target
    rw [h]
  constructor
  · unfold Mpris.activate
    rw [h]
  · unfold Mpris.complete
    rw [h2]

/-- Witness for C9 on the empty list. -/
theorem c9_witness :
    Mpris.activate (constWorld ((1 : ℚ) / 2)) subseqMatcher [] [] 3 = ⟨[], [], []⟩ ∧
    Mpris.complete subseqMatcher [] [] 3 = ([], []) :=
  c9_out_of_range (constWorld ((1 : ℚ) / 2)) subseqMatcher [] [] 3 (by decide)

/-- Claim C10 (confirmed): on the success path the rust docs plugin appends at
most 10 results: the scored matches are stably sorted by descending score,
truncated to the first 10 (dropping the rest), and the appended count is
`min 10 (number of matches)`. -/
theorem c10_truncated_ranking (m : Matcher) (entries : List RustDocs.Entry) (term : Str) :
    (RustDocs.searchOk m entries term).1.length
        = min 10 (RustDocs.scoredMatches m entries term).length ∧
    (appendIds (RustDocs.searchOk m entries term).2).length ≤ 10 ∧
    (RustDocs.rankedMatches m entries term).Pairwise (fun a b => b.2 ≤ a.2) ∧
    RustDocs.rankedMatches m entries term
        = (RustDocs.sortedMatches m entries term).take 10 := by
  have h1 : (RustDocs.searchOk m entries term).1.length
      = min 10 (RustDocs.scoredMatches m entries term).length := by
    simp [RustDocs.searchOk, RustDocs.rankedMatches, RustDocs.sortedMatches]
  refine ⟨h1, ?_, ?_, rfl⟩
  · rw [RustDocs.rust_search_ids, List.length_range, h1]
    exact min_le_left _ _
  · exact List.Pairwise.sublist (List.take_sublist 10 _)
      (RustDocs.sortedMatches_pairwise m entries term)
